import Mathlib

/-!
Verification development for the WiggleRoom module collection.

Shallow embedding of the rhythm/logic core shared by the Euclogic family
(`EuclideanEngine`, `ProbabilityGate`, `TruthTableT<N>`, the clock scheduler
fragment of `EuclogicCore`) and of the ACID9Seq `InterferenceEngine` pitch
quantizer.  C++ `int` values are modelled as `Int`; 32-bit unsigned values
(the mt19937 generator words, `uint8_t` table entries) are modelled as `Nat`
with explicit `% 2^w` / masking where the C++ performs wrap-around.
`float` clock times and probabilities are modelled as `Rat`; every claim
settled here depends only on comparisons and state threading, never on
floating-point rounding.
-/

namespace WiggleRoom

/-! ## EuclideanEngine (src/src/modules/Euclogic/EuclideanEngine.hpp) -/

/-- The interleaving loop of `EuclideanEngine::generate` (Bjorklund's
algorithm), lines 50–84 of EuclideanEngine.hpp, followed by the flatten.
Each element of `second` is concatenated onto the matching element of
`first`; whichever list is longer leaves its untouched tail as the new
`second`, and `first` is truncated to the matched prefix.  Each pass
strictly decreases `first.length + second.length` whenever `first` is
non-empty, so passing that sum as `fuel` computes the exact C++ loop;
`generate` always seeds `first` with `hits ≥ 1` singletons (with
`first = []` and `second.length > 1` the C++ loop would never terminate;
the fuel version stops, a deviation only on that unreachable input). -/
def bjorklundLoop (fuel : Nat) (first second : List (List Bool)) : List Bool :=
  match fuel with
  | 0 => (first ++ second).flatten
  | fuel + 1 =>
    if 1 < second.length then
      bjorklundLoop fuel
        (List.zipWith (· ++ ·) first second)
        (if first.length < second.length then second.drop first.length
         else first.drop second.length)
    else
      (first ++ second).flatten

/-- `EuclideanEngine::generate`, lines 26–92: produce the Euclidean pattern
for the given (already clamped) `steps`, `hits`, `rotation`.  The C++
writes the result into `pattern`; the embedding returns it.  Rotation reads
`result[(i + rotation) % steps]` per output index `i`. -/
def generate (steps hits rotation : Int) : List Bool :=
  if steps ≤ 0 then []
  else if hits ≤ 0 then List.replicate steps.toNat false
  else if steps ≤ hits then List.replicate steps.toNat true
  else
    let first := List.replicate hits.toNat [true]
    let second := List.replicate (steps - hits).toNat [false]
    let result := bjorklundLoop (first.length + second.length) first second
    (List.range steps.toNat).map
      (fun i => result.getD (((Int.ofNat i + rotation) % steps).toNat) false)

/-- State of `EuclideanEngine` (lines 13–23): configuration, playhead and
the memoized pattern. -/
structure EuclideanEngine where
  steps : Int
  hits : Int
  rotation : Int
  currentStep : Int
  pattern : List Bool
deriving DecidableEq, Repr

/-- Default-constructed `EuclideanEngine`: steps=16, hits=8, rotation=0,
currentStep=0, empty pattern (no pattern is generated until `configure`
changes a parameter). -/
def EuclideanEngine.default : EuclideanEngine :=
  { steps := 16, hits := 8, rotation := 0, currentStep := 0, pattern := [] }

/-- `EuclideanEngine::configure`, lines 95–115: clamp the arguments,
regenerate the pattern only when a clamped value differs from the stored
one, and reset (or clamp) `currentStep`. -/
def EuclideanEngine.configure (e : EuclideanEngine)
    (numSteps numHits rot : Int) : EuclideanEngine :=
  let newSteps := max 1 (min 64 numSteps)
  let newHits := max 0 (min newSteps numHits)
  let newRotation := max 0 (min (newSteps - 1) rot)
  if newSteps ≠ e.steps ∨ newHits ≠ e.hits ∨ newRotation ≠ e.rotation then
    { steps := newSteps, hits := newHits, rotation := newRotation,
      currentStep :=
        if newSteps ≠ e.steps then 0
        else if newSteps ≤ e.currentStep then 0
        else e.currentStep,
      pattern := generate newSteps newHits newRotation }
  else e

/-- `EuclideanEngine::tick`, lines 118–124: read the hit at `currentStep`,
advance the playhead modulo `steps`.  Returns `false` and leaves the state
unchanged when `steps ≤ 0` or the pattern is empty. -/
def EuclideanEngine.tick (e : EuclideanEngine) : Bool × EuclideanEngine :=
  if e.steps ≤ 0 ∨ e.pattern.isEmpty then (false, e)
  else
    (e.pattern.getD e.currentStep.toNat false,
     { e with currentStep := (e.currentStep + 1) % e.steps })

/-- `EuclideanEngine::getHit`, lines 132–135: bounds-checked read-only
pattern lookup. -/
def EuclideanEngine.getHit (e : EuclideanEngine) (step : Int) : Bool :=
  if step < 0 ∨ (e.pattern.length : Int) ≤ step then false
  else e.pattern.getD step.toNat false

/-- Run `tick` a number of times, collecting the returned booleans. -/
def EuclideanEngine.tickN (e : EuclideanEngine) : Nat → List Bool × EuclideanEngine
  | 0 => ([], e)
  | n + 1 =>
    let r := e.tick
    let rest := r.2.tickN n
    (r.1 :: rest.1, rest.2)

/-! ## std::mt19937 (external collaborator of ProbabilityGate and
TruthTableT; the standard 32-bit Mersenne Twister, fully specified by the
C++ standard).  Words are `Nat` values kept below `2^32`. -/

/-- mt19937 state: the 624 state words and the read index (`mti`). -/
structure MTState where
  words : List Nat
  idx : Nat
deriving DecidableEq, Repr

/-- The tail of mt19937 seed initialisation:
`mt[i] = (1812433253 * (mt[i-1] ^ (mt[i-1] >> 30)) + i) mod 2^32`. -/
def mtSeedFrom (prev i : Nat) : Nat → List Nat
  | 0 => []
  | n + 1 =>
    let w := (1812433253 * (prev ^^^ (prev >>> 30)) + i) % 4294967296
    w :: mtSeedFrom w (i + 1) n

/-- `mt19937::seed(s)`: fill all 624 words; the index is set to 624 so
the first draw performs a twist. -/
def mtSeed (s : Nat) : MTState :=
  let w0 := s % 4294967296
  ⟨w0 :: mtSeedFrom w0 1 623, 624⟩

/-- One mt19937 twist pass, updating all 624 words in place (later words
read the already-updated earlier words, as in the reference algorithm). -/
def mtTwist (ws : List Nat) : List Nat :=
  (List.range 624).foldl
    (fun cur i =>
      let x := ((cur.getD i 0) &&& 2147483648) +
               ((cur.getD ((i + 1) % 624) 0) &&& 2147483647)
      let xA := x >>> 1
      let xA := if x % 2 = 1 then xA ^^^ 2567483615 else xA
      cur.set i ((cur.getD ((i + 397) % 624) 0) ^^^ xA))
    ws

/-- Draw one 32-bit word from mt19937 (twist when the index reaches 624,
then temper). -/
def mtNext (st : MTState) : Nat × MTState :=
  let st := if 624 ≤ st.idx then MTState.mk (mtTwist st.words) 0 else st
  let y := st.words.getD st.idx 0
  let y := y ^^^ (y >>> 11)
  let y := y ^^^ ((y <<< 7) &&& 2636928640)
  let y := y ^^^ ((y <<< 15) &&& 4022730752)
  let y := y ^^^ (y >>> 18)
  (y, ⟨st.words, st.idx + 1⟩)

/-- One draw of `std::uniform_real_distribution<float>{0,1}` over mt19937:
one 32-bit engine draw, scaled into [0,1).  The exact float value is
implementation-defined; it is modelled as the exact rational `x / 2^32`.
No claim settled here depends on the numeric value, only on the draw
being a deterministic function of the engine state. -/
def drawUnitReal (st : MTState) : Rat × MTState :=
  let r := mtNext st
  ((r.1 : Rat) / 4294967296, r.2)

/-- One draw of `std::uniform_int_distribution<int>{lo, hi}` over mt19937.
The library's down-scaling algorithm is implementation-defined; it is
modelled as modulo reduction of a single engine draw, which matches the
properties the code relies on: the result lies in `[lo, hi]` and is a
deterministic function of the engine state. -/
def drawIntRange (lo hi : Nat) (st : MTState) : Nat × MTState :=
  let r := mtNext st
  (lo + r.1 % (hi - lo + 1), r.2)

/-! ## ProbabilityGate (src/src/modules/Euclogic/ProbabilityGate.hpp) -/

/-- `ProbabilityGate` state (lines 13–20): probability threshold, RNG
state and the stored seed.  `probability` is `float` in C++, modelled as
`Rat` (only order comparisons are performed on it). -/
structure ProbabilityGate where
  probability : Rat
  rng : MTState
  seed : Nat
deriving DecidableEq, Repr

/-- The `ProbabilityGate` constructor (lines 22–27): seed from
`std::random_device`, whose output is the explicit parameter `d`. -/
def ProbabilityGate.construct (d : Nat) : ProbabilityGate :=
  { probability := 1, rng := mtSeed (d % 4294967296), seed := d % 4294967296 }

/-- `ProbabilityGate::setSeed` (lines 30–33). -/
def ProbabilityGate.setSeed (g : ProbabilityGate) (s : Nat) : ProbabilityGate :=
  { g with seed := s % 4294967296, rng := mtSeed (s % 4294967296) }

/-- `ProbabilityGate::reset` (lines 36–38): reseed from the stored seed. -/
def ProbabilityGate.resetRng (g : ProbabilityGate) : ProbabilityGate :=
  { g with rng := mtSeed g.seed }

/-- `ProbabilityGate::test` (lines 42–46): short-circuit at probability
≤ 0 or ≥ 1, otherwise draw and compare. -/
def ProbabilityGate.test (g : ProbabilityGate) : Bool × ProbabilityGate :=
  if g.probability ≤ 0 then (false, g)
  else if 1 ≤ g.probability then (true, g)
  else
    let r := drawUnitReal g.rng
    (decide (r.1 < g.probability), { g with rng := r.2 })

/-- `ProbabilityGate::process(bool)` (lines 49–52): false input returns
false without touching the RNG; true input applies `test()`. -/
def ProbabilityGate.process (g : ProbabilityGate) (input : Bool) :
    Bool × ProbabilityGate :=
  if !input then (false, g) else g.test

/-- `ProbabilityGate::process(bool, float)` (lines 55–60): false input
returns false without touching the RNG; otherwise the explicit
probability is used with the same threshold short-circuits. -/
def ProbabilityGate.processP (g : ProbabilityGate) (input : Bool) (prob : Rat) :
    Bool × ProbabilityGate :=
  if !input then (false, g)
  else if prob ≤ 0 then (false, g)
  else if 1 ≤ prob then (true, g)
  else
    let r := drawUnitReal g.rng
    (decide (r.1 < prob), { g with rng := r.2 })

/-- `ProbabilityGate::setProbability` (lines 63–65): clamp to [0,1]. -/
def ProbabilityGate.setProbability (g : ProbabilityGate) (p : Rat) :
    ProbabilityGate :=
  { g with probability := max 0 (min 1 p) }

/-- One call of the `ProbabilityGate` public interface, as driven by a
test or by `EuclogicCore`. -/
inductive GateCall where
  | test : GateCall
  | process (input : Bool) : GateCall
  | processP (input : Bool) (prob : Rat) : GateCall
  | setProbability (p : Rat) : GateCall
  | setSeed (s : Nat) : GateCall
  | resetRng : GateCall
deriving DecidableEq, Repr

/-- Drive a gate through a sequence of calls, collecting the boolean
result of every `test`/`process` call. -/
def ProbabilityGate.run (g : ProbabilityGate) :
    List GateCall → List Bool × ProbabilityGate
  | [] => ([], g)
  | c :: cs =>
    match c with
    | .test =>
      let r := g.test
      let rest := r.2.run cs
      (r.1 :: rest.1, rest.2)
    | .process input =>
      let r := g.process input
      let rest := r.2.run cs
      (r.1 :: rest.1, rest.2)
    | .processP input prob =>
      let r := g.processP input prob
      let rest := r.2.run cs
      (r.1 :: rest.1, rest.2)
    | .setProbability p => (g.setProbability p).run cs
    | .setSeed s => (g.setSeed s).run cs
    | .resetRng => g.resetRng.run cs

/-! ## TruthTableT<N> (src/src/modules/Euclogic/TruthTable.hpp)

The template parameter `N_CHANNELS` is passed explicitly to each
operation.  `std::vector` undo/redo histories are modelled as lists with
the most recent snapshot first (push_back/back/pop_back become
cons/head/tail).  `uint8_t` entries are `Nat` values with explicit
`% 256` at every cast site. -/

/-- `TruthTableT` state (lines 17–31): the 2^N-entry mapping, the two
history stacks and the RNG. -/
structure TruthTableT where
  mapping : List Nat
  undoHistory : List (List Nat)
  redoHistory : List (List Nat)
  rng : MTState
deriving DecidableEq, Repr

/-- `OUTPUT_MASK = static_cast<uint8_t>((1 << N_CHANNELS) - 1)`
(line 21); the cast is the identity for the instantiated N ∈ {2,3,4}. -/
def ttOutputMask (N : Nat) : Nat := ((1 <<< N) - 1) % 256

/-- The `TruthTableT` constructor (lines 33–40): identity mapping
(`mapping[i] = uint8(i) & OUTPUT_MASK`), empty histories, RNG seeded
from `std::random_device`, whose output is the explicit parameter `d`. -/
def TruthTableT.init (N d : Nat) : TruthTableT :=
  { mapping := (List.range (2 ^ N)).map (fun i => (i % 256) &&& ttOutputMask N),
    undoHistory := [], redoHistory := [],
    rng := mtSeed (d % 4294967296) }

/-- `TruthTableT::setMapping` (lines 67–71): bounds-checked store of a
masked output value. -/
def TruthTableT.setMapping (N : Nat) (t : TruthTableT)
    (inputState outputMask : Nat) : TruthTableT :=
  let s := inputState % 256
  if s < 2 ^ N then
    { t with mapping := t.mapping.set s ((outputMask % 256) &&& ttOutputMask N) }
  else t

/-- `TruthTableT::toggleBit` (lines 85–89): bounds-checked XOR of one
output bit of one entry. -/
def TruthTableT.toggleBit (N : Nat) (t : TruthTableT)
    (inputState outputBit : Nat) : TruthTableT :=
  let s := inputState % 256
  let b := outputBit % 256
  if s < 2 ^ N ∧ b < N then
    { t with mapping := t.mapping.set s ((t.mapping.getD s 0) ^^^ (1 <<< b)) }
  else t

/-- `TruthTableT::pushUndo` (lines 95–98): snapshot the mapping onto the
undo stack and clear the redo stack. -/
def TruthTableT.pushUndo (t : TruthTableT) : TruthTableT :=
  { t with undoHistory := t.mapping :: t.undoHistory, redoHistory := [] }

/-- `TruthTableT::undo` (lines 100–106): move the current mapping to the
redo stack and pop the undo stack; fail on empty history. -/
def TruthTableT.undo (t : TruthTableT) : Bool × TruthTableT :=
  match t.undoHistory with
  | [] => (false, t)
  | m :: rest =>
    (true, { t with redoHistory := t.mapping :: t.redoHistory,
                    mapping := m, undoHistory := rest })

/-- `TruthTableT::redo` (lines 108–114): the mirror of `undo`. -/
def TruthTableT.redo (t : TruthTableT) : Bool × TruthTableT :=
  match t.redoHistory with
  | [] => (false, t)
  | m :: rest =>
    (true, { t with undoHistory := t.mapping :: t.undoHistory,
                    mapping := m, redoHistory := rest })

/-- `TruthTableT::randomize` (lines 121–127): push undo, then replace
every entry with `uint8(dist(rng))`, `dist = uniform_int(0, OUTPUT_MASK)`,
drawing sequentially. -/
def TruthTableT.randomize (N : Nat) (t : TruthTableT) : TruthTableT :=
  let t1 := t.pushUndo
  let r := (List.range (2 ^ N)).foldl
    (fun acc i =>
      let d := drawIntRange 0 (ttOutputMask N) acc.2
      (acc.1.set i (d.1 % 256), d.2))
    (t1.mapping, t1.rng)
  { t1 with mapping := r.1, rng := r.2 }

/-- The flip loop of `TruthTableT::mutate` (lines 136–140): per flip,
draw an entry index then a bit index and XOR that bit. -/
def mutateFlips (N : Nat) : Nat → List Nat → MTState → List Nat × MTState
  | 0, m, rng => (m, rng)
  | k + 1, m, rng =>
    let e := drawIntRange 0 (2 ^ N - 1) rng
    let b := drawIntRange 0 (N - 1) e.2
    mutateFlips N k (m.set e.1 ((m.getD e.1 0) ^^^ (1 <<< b.1))) b.2

/-- `TruthTableT::mutate` (lines 129–141): push undo, draw a flip count
in `[1, min 3 N]`, then flip that many random bits. -/
def TruthTableT.mutate (N : Nat) (t : TruthTableT) : TruthTableT :=
  let t1 := t.pushUndo
  let c := drawIntRange 1 (min 3 N) t1.rng
  let r := mutateFlips N c.1 t1.mapping c.2
  { t1 with mapping := r.1, rng := r.2 }

/-- `TruthTableT::deserialize` (lines 147–149): overwrite the mapping
with the stored bytes, unmasked. -/
def TruthTableT.deserialize (t : TruthTableT) (data : List Nat) : TruthTableT :=
  { t with mapping := data }

/-- `__builtin_popcount` restricted to the 4-bit inputs used by
`TruthTable::loadPreset`. -/
def popcount4 (i : Nat) : Nat :=
  (i &&& 1) + ((i >>> 1) &&& 1) + ((i >>> 2) &&& 1) + ((i >>> 3) &&& 1)

/-- The preset tables of `TruthTable::loadPreset` (lines 158–209,
4-channel subclass only): the 16-entry mapping installed for each
recognised name, `none` for an unrecognised one.  `(~i) & 0x0F` on a
non-negative `int` is two's complement, i.e. `(2^32 - 1 - i) & 0x0F`. -/
def presetTable (name : String) : Option (List Nat) :=
  if name = "PASS" ∨ name = "pass" then
    some ((List.range 16).map (fun i => i % 256))
  else if name = "OR" ∨ name = "or" then
    some ((List.range 16).map (fun i => if 0 < i then 15 else 0))
  else if name = "AND" ∨ name = "and" then
    some ((List.range 16).map (fun i => if i = 15 then 15 else 0))
  else if name = "XOR" ∨ name = "xor" then
    some ((List.range 16).map (fun i => if popcount4 i % 2 = 1 then 15 else 0))
  else if name = "MAJORITY" ∨ name = "majority" then
    some ((List.range 16).map (fun i => if 2 ≤ popcount4 i then 15 else 0))
  else if name = "NOR" ∨ name = "nor" then
    some ((List.range 16).map (fun i => if i = 0 then 15 else 0))
  else if name = "NAND" ∨ name = "nand" then
    some ((List.range 16).map (fun i => if i ≠ 15 then 15 else 0))
  else if name = "ROTATE" ∨ name = "rotate" then
    some ((List.range 16).map (fun i => ((i <<< 1) ||| (i >>> 3)) &&& 15))
  else if name = "INVERT" ∨ name = "invert" then
    some ((List.range 16).map (fun i => (4294967295 - i) &&& 15))
  else none

/-- `TruthTable::loadPreset` (lines 158–209): push undo first, then
install the preset mapping when the name is recognised. -/
def TruthTableT.loadPreset (t : TruthTableT) (name : String) : TruthTableT :=
  let t1 := t.pushUndo
  match presetTable name with
  | some m => { t1 with mapping := m }
  | none => t1

/-- One call of the mutating `TruthTableT` interface (the operations the
range invariant is claimed over; `deserialize` is deliberately not in
this list). -/
inductive TTOp where
  | setMapping (s m : Nat) : TTOp
  | toggleBit (s b : Nat) : TTOp
  | randomize : TTOp
  | mutate : TTOp
  | pushUndo : TTOp
  | undo : TTOp
  | redo : TTOp
  | loadPreset (name : String) : TTOp
deriving DecidableEq, Repr

/-- Apply one operation.  `loadPreset` exists only on the 4-channel
subclass `TruthTable : TruthTableT<4>`, so for N ≠ 4 it is a no-op. -/
def TTOp.apply (N : Nat) (t : TruthTableT) : TTOp → TruthTableT
  | .setMapping s m => TruthTableT.setMapping N t s m
  | .toggleBit s b => TruthTableT.toggleBit N t s b
  | .randomize => TruthTableT.randomize N t
  | .mutate => TruthTableT.mutate N t
  | .pushUndo => t.pushUndo
  | .undo => t.undo.2
  | .redo => t.redo.2
  | .loadPreset name => if N = 4 then t.loadPreset name else t

/-- Apply a sequence of operations in order. -/
def TruthTableT.runOps (N : Nat) (t : TruthTableT) : List TTOp → TruthTableT
  | [] => t
  | op :: ops => TruthTableT.runOps N (TTOp.apply N t op) ops

/-- The N-bit range invariant of C10: every entry of the mapping and of
every history snapshot lies in `[0, 2^N)`. -/
def TTWF (N : Nat) (t : TruthTableT) : Prop :=
  (∀ x ∈ t.mapping, x < 2 ^ N) ∧
  (∀ m ∈ t.undoHistory, ∀ x ∈ m, x < 2 ^ N) ∧
  (∀ m ∈ t.redoHistory, ∀ x ∈ m, x < 2 ^ N)

/-! ## Clock scheduler state of EuclogicCore
(src/src/modules/Euclogic/EuclogicCore.hpp, lines 129–136, 228–245,
280–296).  `float` times are modelled as `Rat`; the Schmitt trigger that
detects the external clock edge is host-rack code outside src, so the
per-sample step takes "edge detected" as a boolean input. -/

/-- The scheduler fields of `EuclogicCore` (lines 129–136).  Per-channel
fields (engines, counters, pulse generators) are omitted: the claims
about this state concern only the scheduler. -/
structure ClockState where
  clockPeriod : Rat
  timeSinceClock : Rat
  internalTickPhase : Rat
  clockLocked : Bool
  running : Bool
  hadFirstTick : Bool
  prevSpeedIdx : Int
  swingLong : Bool
deriving DecidableEq, Repr

/-- `EuclogicCore::resetState` (lines 228–245), scheduler fields: sets
`timeSinceClock`, `internalTickPhase`, `clockPeriod`
(`DEFAULT_CLOCK_PERIOD = 0.5`), `running`, `hadFirstTick`,
`prevSpeedIdx`, `swingLong`.  `clockLocked` is not assigned. -/
def ClockState.resetState (s : ClockState) : ClockState :=
  { s with timeSinceClock := 0, internalTickPhase := 0,
           clockPeriod := 1/2, running := true, hadFirstTick := false,
           prevSpeedIdx := 8, swingLong := true }

/-- The per-sample clock handling of `EuclogicCore::process`
(lines 280–296): accumulate `timeSinceClock`; on a detected edge, update
`clockPeriod`/`clockLocked` only past the 1 ms debounce but always reset
`timeSinceClock` and signal `clockEdge`; then the 2 s lock timeout.
Returns the new state and the `clockEdge` flag for this sample. -/
def ClockState.clockStep (s : ClockState) (dt : Rat) (edgeDetected : Bool) :
    ClockState × Bool :=
  let s1 := { s with timeSinceClock := s.timeSinceClock + dt }
  let r : ClockState × Bool :=
    if edgeDetected then
      let s2 :=
        if 1/1000 < s1.timeSinceClock then
          { s1 with clockPeriod := s1.timeSinceClock, clockLocked := true }
        else s1
      ({ s2 with timeSinceClock := 0 }, true)
    else (s1, false)
  let s3 :=
    if (2 : Rat) < r.1.timeSinceClock then
      { r.1 with clockLocked := false, hadFirstTick := false }
    else r.1
  (s3, r.2)

/-! ## InterferenceEngine::quantizeToScale
(src/src/modules/ACID9Seq/InterferenceEngine.hpp, lines 290–330).
`root_` is clamped to [0,11] by `setRoot`/`updateFromScaleBus`, so the
C++ `%` on `int` agrees with `Int.emod` everywhere below (all left
operands are non-negative); likewise `/` on the non-negative clamped
pitch agrees with `Int.ediv`. -/

/-- The offset search loop of `quantizeToScale` (lines 307–327),
including the unreachable `newNote < 0` branch of the source (for the
offsets 1..6 used, `note - off + 12 ≥ 1`).  Returns `p` (the clamped
pitch) when no offset matches. -/
def quantSearch (mask : Nat) (relNote note octave p : Int) :
    List Int → Int
  | [] => p
  | off :: rest =>
    let lower := ((relNote - off + 12) % 12).toNat
    let upper := ((relNote + off) % 12).toNat
    if mask.testBit lower then
      let newNote := note - off + 12
      let nn2 := if newNote < 0 then newNote + 12 else newNote
      let oct2 := if newNote < 0 then
          (if 0 < octave then octave - 1 else octave) else octave
      oct2 * 12 + nn2 % 12
    else if mask.testBit upper then
      let newNote := note + off
      if 12 ≤ newNote then (octave + 1) * 12 + (newNote - 12)
      else octave * 12 + newNote
    else quantSearch mask relNote note octave p rest

/-- `InterferenceEngine::quantizeToScale` (lines 290–330): clamp the
pitch to [0, 36], pass it through when its note relative to the root is
in the scale mask, otherwise search outward up to 6 semitones. -/
def quantizeToScale (mask : Nat) (root pitch : Int) : Int :=
  let p := min (max pitch 0) 36
  let octave := p / 12
  let note := p % 12
  let relNote := (note - root + 12) % 12
  if mask.testBit relNote.toNat then p
  else quantSearch mask relNote note octave p [1, 2, 3, 4, 5, 6]

/-- The amended specification of `quantizeToScale`, written in the
spec's terms (nearest in-scale semitone, lower neighbour preferred,
radius 6, pass through otherwise), amended in exactly two points forced
by the source: the pitch is first clamped to [0, 36], and when the
preferred lower neighbour wraps below the octave boundary
(`note < off`) the result lands an octave above that nearest lower
candidate (`p - off + 12`). -/
def quantizeSpecAmended (mask : Nat) (root pitch : Int) : Int :=
  let p := min (max pitch 0) 36
  let note := p % 12
  let relNote := (note - root + 12) % 12
  if mask.testBit relNote.toNat then p
  else
    match ([1, 2, 3, 4, 5, 6] : List Int).find? (fun off =>
        mask.testBit (((relNote - off + 12) % 12).toNat) ||
        mask.testBit (((relNote + off) % 12).toNat)) with
    | none => p
    | some off =>
      if mask.testBit (((relNote - off + 12) % 12).toNat) then
        if off ≤ note then p - off else p - off + 12
      else p + off

end WiggleRoom

/-- Helper: reading a mapped range at an in-bounds index. -/
theorem getD_map_range (f : Nat → Bool) (m j : Nat) (hj : j < m) :
    ((List.range m).map f).getD j false = f j := by
  rw [List.getD_eq_getElem?_getD]
  simp [List.getElem?_map, List.getElem?_range, hj]

/-- Helper: one `tick` of an engine whose pattern has length `n = steps`
and whose playhead is at `k < n`. -/
theorem tick_at (e : WiggleRoom.EuclideanEngine) (n : Nat)
    (hlen : e.pattern.length = n) (hpos : 0 < n)
    (hsteps : e.steps = (n : Int)) (k : Nat) (hk : k < n) :
    ({ e with currentStep := (k : Int) } :
        WiggleRoom.EuclideanEngine).tick =
      (e.pattern.getD k false,
       { e with currentStep := (((k + 1) % n : Nat) : Int) }) := by
  have h1 : ¬(e.steps ≤ 0 ∨ e.pattern.isEmpty = true) := by
    push_neg
    refine ⟨by rw [hsteps]; exact_mod_cast hpos, ?_⟩
    cases hp : e.pattern with
    | nil => rw [hp] at hlen; simp at hlen; omega
    | cons a l => simp
  simp only [WiggleRoom.EuclideanEngine.tick]
  rw [if_neg (by simpa using h1)]
  simp only [Prod.mk.injEq]
  refine ⟨by simp, ?_⟩
  congr 1
  rw [hsteps]
  push_cast
  rfl

/-- Helper: the outputs of `m` consecutive `tick`s starting from playhead
`k < n` are the pattern entries at `(k+i) % n`. -/
theorem tickN_outputs (e : WiggleRoom.EuclideanEngine) (n : Nat)
    (hlen : e.pattern.length = n) (hpos : 0 < n)
    (hsteps : e.steps = (n : Int)) :
    ∀ (m k : Nat), k < n →
      (({ e with currentStep := (k : Int) } :
          WiggleRoom.EuclideanEngine).tickN m).1 =
        (List.range m).map (fun i => e.pattern.getD ((k + i) % n) false) := by
  intro m
  induction m with
  | zero =>
    intro k hk
    simp [WiggleRoom.EuclideanEngine.tickN]
  | succ m ih =>
    intro k hk
    have ht := tick_at e n hlen hpos hsteps k hk
    have ih' := ih ((k + 1) % n) (Nat.mod_lt _ hpos)
    simp only [WiggleRoom.EuclideanEngine.tickN, ht, ih',
      List.range_succ_eq_map, List.map_cons, List.map_map, List.cons.injEq]
    refine ⟨by rw [Nat.add_zero, Nat.mod_eq_of_lt hk], ?_⟩
    apply List.map_congr_left
    intro a _
    simp only [Function.comp_apply]
    rw [Nat.mod_add_mod]
    have h2 : k + 1 + a = k + a.succ := by omega
    rw [h2]

/-- C1: after `EuclideanEngine::configure(steps, hits, 0)` on a
default-constructed engine, the generated pattern equals the documented
literal sequence for each pair of the known-pattern contract:
E(3,8), E(5,8), E(4,12), E(0,8), E(8,8), E(1,4), E(2,4). -/
theorem euclidean_known_patterns :
    (WiggleRoom.EuclideanEngine.default.configure 8 3 0).pattern =
      [true, false, false, true, false, false, true, false] ∧
    (WiggleRoom.EuclideanEngine.default.configure 8 5 0).pattern =
      [true, false, true, true, false, true, true, false] ∧
    (WiggleRoom.EuclideanEngine.default.configure 12 4 0).pattern =
      [true, false, false, true, false, false, true, false, false, true, false, false] ∧
    (WiggleRoom.EuclideanEngine.default.configure 8 0 0).pattern =
      List.replicate 8 false ∧
    (WiggleRoom.EuclideanEngine.default.configure 8 8 0).pattern =
      List.replicate 8 true ∧
    (WiggleRoom.EuclideanEngine.default.configure 4 1 0).pattern =
      [true, false, false, false] ∧
    (WiggleRoom.EuclideanEngine.default.configure 4 2 0).pattern =
      [true, false, true, false] := by
  refine ⟨?_, ?_, ?_, ?_, ?_, ?_, ?_⟩ <;> decide

/-- C6: for a configured `EuclideanEngine` (non-empty pattern, playhead
at step 0, `steps` equal to the pattern length), the results of calling
`tick()` exactly `steps` times are `getHit 0, …, getHit (steps-1)`, and
the `(steps+1)`-th call returns the same value as the first. -/
theorem euclidean_tick_cycle (e : WiggleRoom.EuclideanEngine)
    (hne : e.pattern ≠ [])
    (hcs : e.currentStep = 0)
    (hsteps : e.steps = (e.pattern.length : Int)) :
    (e.tickN e.pattern.length).1 =
      (List.range e.pattern.length).map (fun i : Nat => e.getHit (i : Int)) ∧
    (e.tickN (e.pattern.length + 1)).1.getD e.pattern.length false =
      (e.tickN (e.pattern.length + 1)).1.getD 0 false := by
  have hpos : 0 < e.pattern.length := List.length_pos.mpr hne
  have h0 : ({ e with currentStep := ((0 : Nat) : Int) } :
      WiggleRoom.EuclideanEngine) = e := by
    rw [Nat.cast_zero, ← hcs]
  have hout := tickN_outputs e e.pattern.length rfl hpos hsteps
  constructor
  · have h1 := hout e.pattern.length 0 hpos
    rw [h0] at h1
    rw [h1]
    apply List.map_congr_left
    intro i hi
    rw [List.mem_range] at hi
    simp only [WiggleRoom.EuclideanEngine.getHit]
    rw [if_neg (by push_neg; exact ⟨Int.natCast_nonneg i, by exact_mod_cast hi⟩)]
    simp [Nat.mod_eq_of_lt hi]
  · have h2 := hout (e.pattern.length + 1) 0 hpos
    rw [h0] at h2
    rw [h2, getD_map_range _ _ _ (Nat.lt_succ_self _),
      getD_map_range _ _ _ (Nat.succ_pos _)]
    simp [Nat.mod_self]

/-- Witness for C6 at the concretely configured engine E(3,8). -/
theorem euclidean_tick_cycle_witness :
    ((WiggleRoom.EuclideanEngine.default.configure 8 3 0).tickN
        (WiggleRoom.EuclideanEngine.default.configure 8 3 0).pattern.length).1 =
      (List.range (WiggleRoom.EuclideanEngine.default.configure 8 3 0).pattern.length).map
        (fun i : Nat => (WiggleRoom.EuclideanEngine.default.configure 8 3 0).getHit (i : Int)) ∧
    ((WiggleRoom.EuclideanEngine.default.configure 8 3 0).tickN
        ((WiggleRoom.EuclideanEngine.default.configure 8 3 0).pattern.length + 1)).1.getD
      (WiggleRoom.EuclideanEngine.default.configure 8 3 0).pattern.length false =
    ((WiggleRoom.EuclideanEngine.default.configure 8 3 0).tickN
        ((WiggleRoom.EuclideanEngine.default.configure 8 3 0).pattern.length + 1)).1.getD
      0 false :=
  euclidean_tick_cycle (WiggleRoom.EuclideanEngine.default.configure 8 3 0)
    (by decide) (by decide) (by decide)

/-- C9: a default-constructed `EuclideanEngine` has an empty pattern;
`configure(16, 8, 0)` (all clamped values equal to the stored defaults)
leaves it unchanged, generating no pattern; and `tick()` on any engine
with an empty pattern returns `false` and leaves the engine unchanged,
so every tick stays `false` until a configure call changes a clamped
parameter. -/
theorem euclidean_default_memoized :
    WiggleRoom.EuclideanEngine.default.pattern = [] ∧
    WiggleRoom.EuclideanEngine.default.configure 16 8 0 =
      WiggleRoom.EuclideanEngine.default ∧
    (∀ e : WiggleRoom.EuclideanEngine, e.pattern = [] → e.tick = (false, e)) := by
  refine ⟨rfl, by decide, ?_⟩
  intro e he
  simp [WiggleRoom.EuclideanEngine.tick, he]

/-- Witness for C9: the empty-pattern tick clause at the default engine. -/
theorem euclidean_default_memoized_witness :
    WiggleRoom.EuclideanEngine.default.tick =
      (false, WiggleRoom.EuclideanEngine.default) :=
  euclidean_default_memoized.2.2 WiggleRoom.EuclideanEngine.default rfl

/-- C4: two `ProbabilityGate` instances, each constructed with its own
(arbitrary) `random_device` value, then given the same seed via
`setSeed`, produce identical boolean output sequences under any
identical sequence of `test`/`process` calls with identical probability
arguments (in particular over 100 or more draws): `setSeed` overwrites
the entire RNG state and the constructor fixes `probability = 1`, so the
two gates are in identical states. -/
theorem probability_gate_deterministic (d1 d2 s : Nat)
    (calls : List WiggleRoom.GateCall) :
    (((WiggleRoom.ProbabilityGate.construct d1).setSeed s).run calls).1 =
    (((WiggleRoom.ProbabilityGate.construct d2).setSeed s).run calls).1 := by
  have h : (WiggleRoom.ProbabilityGate.construct d1).setSeed s =
      (WiggleRoom.ProbabilityGate.construct d2).setSeed s := rfl
  rw [h]

/-- C5: for every gate state and probability, `process(false)` and
`process(false, p)` return `false` and leave the whole gate — in
particular the RNG state — unchanged, so all subsequent draws are those
of a gate that never made the call. -/
theorem probability_gate_false_short_circuit (g : WiggleRoom.ProbabilityGate)
    (p : Rat) (calls : List WiggleRoom.GateCall) :
    g.process false = (false, g) ∧
    g.processP false p = (false, g) ∧
    ((g.process false).2.run calls).1 = (g.run calls).1 :=
  ⟨rfl, rfl, rfl⟩

/-- C2: truth-table undo/redo laws.  For every `TruthTableT` state:
`mutate` then `undo` restores the pre-mutate mapping; `undo` then `redo`
restores the post-mutate mapping; every tracked mutation (`pushUndo`,
`mutate`, `randomize` — each clears the redo stack) performed after an
`undo` makes a subsequent `redo` fail; and `undo`/`redo` on an empty
respective history stack return `false` and change nothing. -/
theorem truth_table_undo_redo (N : Nat) (t : WiggleRoom.TruthTableT) :
    ((WiggleRoom.TruthTableT.mutate N t).undo).2.mapping = t.mapping ∧
    (((WiggleRoom.TruthTableT.mutate N t).undo).2.redo).2.mapping =
      (WiggleRoom.TruthTableT.mutate N t).mapping ∧
    (∀ u : WiggleRoom.TruthTableT, u.pushUndo.redoHistory = []) ∧
    (∀ u : WiggleRoom.TruthTableT,
      (WiggleRoom.TruthTableT.mutate N u).redoHistory = []) ∧
    (∀ u : WiggleRoom.TruthTableT,
      (WiggleRoom.TruthTableT.randomize N u).redoHistory = []) ∧
    ((WiggleRoom.TruthTableT.mutate N
        ((WiggleRoom.TruthTableT.mutate N t).undo).2).redo).1 = false ∧
    (t.undoHistory = [] → t.undo = (false, t)) ∧
    (t.redoHistory = [] → t.redo = (false, t)) := by
  refine ⟨?_, ?_, ?_, ?_, ?_, ?_, ?_, ?_⟩
  · simp [WiggleRoom.TruthTableT.mutate, WiggleRoom.TruthTableT.pushUndo,
      WiggleRoom.TruthTableT.undo]
  · simp [WiggleRoom.TruthTableT.mutate, WiggleRoom.TruthTableT.pushUndo,
      WiggleRoom.TruthTableT.undo, WiggleRoom.TruthTableT.redo]
  · intro u; rfl
  · intro u; rfl
  · intro u; rfl
  · simp [WiggleRoom.TruthTableT.mutate, WiggleRoom.TruthTableT.pushUndo,
      WiggleRoom.TruthTableT.undo, WiggleRoom.TruthTableT.redo]
  · intro h
    simp [WiggleRoom.TruthTableT.undo, h]
  · intro h
    simp [WiggleRoom.TruthTableT.redo, h]

/-- Witness for C2: the empty-history clauses at a freshly constructed
4-channel table. -/
theorem truth_table_undo_redo_witness :
    (WiggleRoom.TruthTableT.init 4 0).undo =
      (false, WiggleRoom.TruthTableT.init 4 0) ∧
    (WiggleRoom.TruthTableT.init 4 0).redo =
      (false, WiggleRoom.TruthTableT.init 4 0) :=
  ⟨(truth_table_undo_redo 4 (WiggleRoom.TruthTableT.init 4 0)).2.2.2.2.2.2.1 rfl,
   (truth_table_undo_redo 4 (WiggleRoom.TruthTableT.init 4 0)).2.2.2.2.2.2.2 rfl⟩

/-- Helper: `OUTPUT_MASK` is always below `2^N` (for the instantiated
N ≤ 8 it equals `2^N - 1`; beyond that the `uint8_t` cast truncates). -/
theorem ttOutputMask_lt (N : Nat) : WiggleRoom.ttOutputMask N < 2 ^ N := by
  unfold WiggleRoom.ttOutputMask
  rw [Nat.shiftLeft_eq, one_mul]
  rcases le_or_lt N 8 with h | h
  · have h1 : 2 ^ N ≤ 256 := by
      calc 2 ^ N ≤ 2 ^ 8 := Nat.pow_le_pow_right (by norm_num) h
        _ = 256 := by norm_num
    have h2 : 0 < 2 ^ N := Nat.two_pow_pos N
    rw [Nat.mod_eq_of_lt (by omega)]
    omega
  · have h1 : 256 < 2 ^ N := by
      calc (256 : Nat) = 2 ^ 8 := by norm_num
        _ < 2 ^ N := Nat.pow_lt_pow_right (by norm_num) h
    have h2 := Nat.mod_lt (2 ^ N - 1) (show 0 < 256 by norm_num)
    omega

/-- Helper: a bounded list stays bounded under `List.set` with a bounded
value. -/
theorem wf_set (N : Nat) (l : List Nat) (h : ∀ x ∈ l, x < 2 ^ N)
    (i v : Nat) (hv : v < 2 ^ N) : ∀ x ∈ l.set i v, x < 2 ^ N := by
  intro x hx
  rcases List.mem_or_eq_of_mem_set hx with hmem | heq
  · exact h x hmem
  · rw [heq]; exact hv

/-- Helper: `getD` of a bounded list is bounded (the default 0 included). -/
theorem wf_getD (N : Nat) (l : List Nat) (h : ∀ x ∈ l, x < 2 ^ N)
    (i : Nat) : l.getD i 0 < 2 ^ N := by
  rcases lt_or_le i l.length with hi | hi
  · rw [List.getD_eq_getElem?_getD]
    have hget : l[i]? = some (l[i]) := List.getElem?_eq_getElem hi
    rw [hget]
    exact h _ (List.getElem_mem hi)
  · rw [List.getD_eq_default _ _ hi]
    exact Nat.two_pow_pos N

/-- Helper: the XOR of one bit below `N` into a bounded entry stays
bounded. -/
theorem wf_xor_bit (N : Nat) (a b : Nat) (ha : a < 2 ^ N) (hb : b < N) :
    a ^^^ (1 <<< b) < 2 ^ N := by
  apply Nat.xor_lt_two_pow ha
  rw [Nat.shiftLeft_eq, one_mul]
  exact Nat.pow_lt_pow_right (by norm_num) hb

/-- Helper: a `drawIntRange lo hi` result is at most `hi` (when
`lo ≤ hi`). -/
theorem drawIntRange_le (lo hi : Nat) (hlh : lo ≤ hi) (st : WiggleRoom.MTState) :
    (WiggleRoom.drawIntRange lo hi st).1 ≤ hi := by
  unfold WiggleRoom.drawIntRange
  have := Nat.mod_lt (WiggleRoom.mtNext st).1 (show 0 < hi - lo + 1 by omega)
  simp only
  omega

/-- Helper: the fill loop of `randomize` keeps every entry below `2^N`. -/
theorem wf_randomize_fold (N : Nat) (is : List Nat)
    (acc : List Nat × WiggleRoom.MTState) (h : ∀ x ∈ acc.1, x < 2 ^ N) :
    ∀ x ∈ (is.foldl
      (fun acc i =>
        let d := WiggleRoom.drawIntRange 0 (WiggleRoom.ttOutputMask N) acc.2
        (acc.1.set i (d.1 % 256), d.2)) acc).1, x < 2 ^ N := by
  induction is generalizing acc with
  | nil => exact h
  | cons i is ih =>
    apply ih
    apply wf_set N _ h
    have h1 := drawIntRange_le 0 (WiggleRoom.ttOutputMask N) (Nat.zero_le _)
      acc.2
    have h2 := ttOutputMask_lt N
    have h3 : (WiggleRoom.drawIntRange 0 (WiggleRoom.ttOutputMask N) acc.2).1 % 256 ≤
        (WiggleRoom.drawIntRange 0 (WiggleRoom.ttOutputMask N) acc.2).1 :=
      Nat.mod_le _ _
    omega

/-- Helper: the flip loop of `mutate` keeps every entry below `2^N`. -/
theorem wf_mutateFlips (N : Nat) (hN : 1 ≤ N) (k : Nat) (m : List Nat)
    (rng : WiggleRoom.MTState) (h : ∀ x ∈ m, x < 2 ^ N) :
    ∀ x ∈ (WiggleRoom.mutateFlips N k m rng).1, x < 2 ^ N := by
  induction k generalizing m rng with
  | zero => exact h
  | succ k ih =>
    rw [WiggleRoom.mutateFlips]
    apply ih
    apply wf_set N _ h
    apply wf_xor_bit N _ _ (wf_getD N _ h _)
    have h1 := drawIntRange_le 0 (N - 1) (Nat.zero_le _)
      (WiggleRoom.drawIntRange 0 (2 ^ N - 1) rng).2
    omega

/-- Helper: the preset tables only contain values below 16. -/
theorem presetTable_wf (name : String) (l : List Nat)
    (hl : WiggleRoom.presetTable name = some l) : ∀ x ∈ l, x < 16 := by
  unfold WiggleRoom.presetTable at hl
  split_ifs at hl <;>
    first
    | exact Option.noConfusion hl
    | (simp only [Option.some.injEq] at hl; subst hl; decide)

/-- Helper: every operation of the C10 list preserves the range
invariant. -/
theorem ttwf_apply (N : Nat) (hN : 1 ≤ N) (t : WiggleRoom.TruthTableT)
    (h : WiggleRoom.TTWF N t) (op : WiggleRoom.TTOp) :
    WiggleRoom.TTWF N (WiggleRoom.TTOp.apply N t op) := by
  obtain ⟨hm, hu, hr⟩ := h
  cases op with
  | setMapping s m =>
    simp only [WiggleRoom.TTOp.apply, WiggleRoom.TruthTableT.setMapping]
    split
    · refine ⟨?_, hu, hr⟩
      apply wf_set N _ hm
      have h1 : (m % 256) &&& WiggleRoom.ttOutputMask N ≤
          WiggleRoom.ttOutputMask N := Nat.and_le_right
      have h2 := ttOutputMask_lt N
      omega
    · exact ⟨hm, hu, hr⟩
  | toggleBit s b =>
    simp only [WiggleRoom.TTOp.apply, WiggleRoom.TruthTableT.toggleBit]
    split
    · next hc =>
      refine ⟨?_, hu, hr⟩
      exact wf_set N _ hm _ _ (wf_xor_bit N _ _ (wf_getD N _ hm _) hc.2)
    · exact ⟨hm, hu, hr⟩
  | randomize =>
    simp only [WiggleRoom.TTOp.apply, WiggleRoom.TruthTableT.randomize,
      WiggleRoom.TruthTableT.pushUndo]
    refine ⟨?_, ?_, ?_⟩
    · exact wf_randomize_fold N _ _ hm
    · intro s hs
      rcases List.mem_cons.mp hs with h1 | h1
      · rw [h1]; exact hm
      · exact hu s h1
    · intro s hs; exact absurd hs (List.not_mem_nil s)
  | mutate =>
    simp only [WiggleRoom.TTOp.apply, WiggleRoom.TruthTableT.mutate,
      WiggleRoom.TruthTableT.pushUndo]
    refine ⟨?_, ?_, ?_⟩
    · exact wf_mutateFlips N hN _ _ _ hm
    · intro s hs
      rcases List.mem_cons.mp hs with h1 | h1
      · rw [h1]; exact hm
      · exact hu s h1
    · intro s hs; exact absurd hs (List.not_mem_nil s)
  | pushUndo =>
    refine ⟨hm, ?_, ?_⟩
    · intro s hs
      rcases List.mem_cons.mp hs with h1 | h1
      · rw [h1]; exact hm
      · exact hu s h1
    · intro s hs; exact absurd hs (List.not_mem_nil s)
  | undo =>
    simp only [WiggleRoom.TTOp.apply, WiggleRoom.TruthTableT.undo]
    cases hh : t.undoHistory with
    | nil => exact ⟨hm, hu, hr⟩
    | cons m rest =>
      have hu' : ∀ s ∈ m :: rest, ∀ x ∈ s, x < 2 ^ N := hh ▸ hu
      refine ⟨hu' m (List.mem_cons_self m rest), ?_, ?_⟩
      · intro s hs; exact hu' s (List.mem_cons_of_mem m hs)
      · intro s hs
        rcases List.mem_cons.mp hs with h1 | h1
        · rw [h1]; exact hm
        · exact hr s h1
  | redo =>
    simp only [WiggleRoom.TTOp.apply, WiggleRoom.TruthTableT.redo]
    cases hh : t.redoHistory with
    | nil => exact ⟨hm, hu, hr⟩
    | cons m rest =>
      have hr' : ∀ s ∈ m :: rest, ∀ x ∈ s, x < 2 ^ N := hh ▸ hr
      refine ⟨hr' m (List.mem_cons_self m rest), ?_, ?_⟩
      · intro s hs
        rcases List.mem_cons.mp hs with h1 | h1
        · rw [h1]; exact hm
        · exact hu s h1
      · intro s hs; exact hr' s (List.mem_cons_of_mem m hs)
  | loadPreset name =>
    simp only [WiggleRoom.TTOp.apply]
    split
    · next hn =>
      subst hn
      simp only [WiggleRoom.TruthTableT.loadPreset, WiggleRoom.TruthTableT.pushUndo]
      cases hp : WiggleRoom.presetTable name with
      | none =>
        refine ⟨hm, ?_, ?_⟩
        · intro s hs
          rcases List.mem_cons.mp hs with h1 | h1
          · rw [h1]; exact hm
          · exact hu s h1
        · intro s hs; exact absurd hs (List.not_mem_nil s)
      | some l =>
        refine ⟨?_, ?_, ?_⟩
        · intro x hx
          exact lt_of_lt_of_le (presetTable_wf name l hp x hx) (by norm_num)
        · intro s hs
          rcases List.mem_cons.mp hs with h1 | h1
          · rw [h1]; exact hm
          · exact hu s h1
        · intro s hs; exact absurd hs (List.not_mem_nil s)
    · exact ⟨hm, hu, hr⟩

/-- Helper: the range invariant is preserved by any operation
sequence. -/
theorem ttwf_runOps (N : Nat) (hN : 1 ≤ N) (t : WiggleRoom.TruthTableT)
    (h : WiggleRoom.TTWF N t) (ops : List WiggleRoom.TTOp) :
    WiggleRoom.TTWF N (WiggleRoom.TruthTableT.runOps N t ops) := by
  induction ops generalizing t with
  | nil => exact h
  | cons op ops ih =>
    rw [WiggleRoom.TruthTableT.runOps]
    exact ih _ (ttwf_apply N hN t h op)

/-- Helper: a freshly constructed table satisfies the range invariant. -/
theorem ttwf_init (N d : Nat) : WiggleRoom.TTWF N (WiggleRoom.TruthTableT.init N d) := by
  refine ⟨?_, ?_, ?_⟩
  · intro x hx
    simp only [WiggleRoom.TruthTableT.init, List.mem_map] at hx
    obtain ⟨i, _, hi⟩ := hx
    have h1 : (i % 256) &&& WiggleRoom.ttOutputMask N ≤
        WiggleRoom.ttOutputMask N := Nat.and_le_right
    have h2 := ttOutputMask_lt N
    omega
  · intro s hs; exact absurd hs (List.not_mem_nil s)
  · intro s hs; exact absurd hs (List.not_mem_nil s)

/-- C10: for every `TruthTableT<N>` state reachable from the constructor
by any sequence of `setMapping`, `toggleBit`, `randomize`, `mutate`,
`pushUndo`, `undo`, `redo` and (for N = 4) `loadPreset` calls with
arbitrary arguments, every entry of `mapping` lies in `[0, 2^N)`;
`deserialize` is the excluded mutator: it stores its bytes unmasked. -/
theorem truth_table_range_invariant (N d : Nat) (hN : 1 ≤ N)
    (ops : List WiggleRoom.TTOp) :
    (∀ x ∈ (WiggleRoom.TruthTableT.runOps N
        (WiggleRoom.TruthTableT.init N d) ops).mapping, x < 2 ^ N) ∧
    (∀ (t : WiggleRoom.TruthTableT) (data : List Nat),
        (t.deserialize data).mapping = data) :=
  ⟨(ttwf_runOps N hN _ (ttwf_init N d) ops).1, fun _ _ => rfl⟩

/-- Witness for C10 at N = 4 with a concrete operation sequence. -/
theorem truth_table_range_invariant_witness :
    (∀ x ∈ (WiggleRoom.TruthTableT.runOps 4
        (WiggleRoom.TruthTableT.init 4 0)
        [WiggleRoom.TTOp.loadPreset "XOR", WiggleRoom.TTOp.pushUndo,
         WiggleRoom.TTOp.toggleBit 3 2, WiggleRoom.TTOp.undo,
         WiggleRoom.TTOp.redo]).mapping, x < 2 ^ 4) ∧
    (∀ (t : WiggleRoom.TruthTableT) (data : List Nat),
        (t.deserialize data).mapping = data) :=
  truth_table_range_invariant 4 0 (by decide)
    [WiggleRoom.TTOp.loadPreset "XOR", WiggleRoom.TTOp.pushUndo,
     WiggleRoom.TTOp.toggleBit 3 2, WiggleRoom.TTOp.undo,
     WiggleRoom.TTOp.redo]

/-- C3 counterexample: at a concrete state 0 s after the previous edge,
an edge arriving after only 0.5 ms (inside the 1 ms debounce window) is
claimed to produce none of the four effects — in particular
`clockEdge` should stay false and `timeSinceClock` should keep its
accumulated value 1/2000.  The code falsifies this: it resets
`timeSinceClock` to 0 and signals `clockEdge = true` (only
`clockPeriod`/`clockLocked` are debounce-guarded). -/
theorem clock_edge_debounce_counterexample :
    ¬((((WiggleRoom.ClockState.mk (1/2) 0 0 false true false 8 true).clockStep
          (1/2000) true).2 = false) ∧
      (((WiggleRoom.ClockState.mk (1/2) 0 0 false true false 8 true).clockStep
          (1/2000) true).1.timeSinceClock = 1/2000)) := by
  intro h
  have h1 := h.1
  norm_num [WiggleRoom.ClockState.clockStep] at h1

/-- C3 (amended): on a detected external clock edge, `clockPeriod` and
`clockLocked` are updated only when the accumulated `timeSinceClock`
exceeds the 1 ms debounce; `timeSinceClock` is reset to 0 and
`clockEdge` is signalled on every detected edge, debounced or not. -/
theorem clock_edge_actions (s : WiggleRoom.ClockState) (dt : Rat) :
    ((1 : Rat)/1000 < s.timeSinceClock + dt →
      ((s.clockStep dt true).1.clockPeriod = s.timeSinceClock + dt ∧
       (s.clockStep dt true).1.clockLocked = true)) ∧
    (¬((1 : Rat)/1000 < s.timeSinceClock + dt) →
      ((s.clockStep dt true).1.clockPeriod = s.clockPeriod ∧
       (s.clockStep dt true).1.clockLocked = s.clockLocked)) ∧
    (s.clockStep dt true).1.timeSinceClock = 0 ∧
    (s.clockStep dt true).2 = true := by
  refine ⟨?_, ?_, ?_, ?_⟩
  · intro h
    norm_num [WiggleRoom.ClockState.clockStep, h]
  · intro h
    norm_num [WiggleRoom.ClockState.clockStep, h]
  · by_cases h : (1 : Rat)/1000 < s.timeSinceClock + dt <;>
      norm_num [WiggleRoom.ClockState.clockStep, h]
  · by_cases h : (1 : Rat)/1000 < s.timeSinceClock + dt <;>
      norm_num [WiggleRoom.ClockState.clockStep, h]

/-- Witness for C3 (amended) at a concrete state and a 1 s edge gap. -/
theorem clock_edge_actions_witness :
    ((WiggleRoom.ClockState.mk (1/2) 0 0 false true false 8 true).clockStep
        1 true).1.clockPeriod = (0 : Rat) + 1 ∧
    ((WiggleRoom.ClockState.mk (1/2) 0 0 false true false 8 true).clockStep
        1 true).1.clockLocked = true :=
  (clock_edge_actions (WiggleRoom.ClockState.mk (1/2) 0 0 false true false 8 true)
    1).1 (by norm_num)

/-- C7 counterexample: `resetState` on a state whose clock is locked
leaves `clockLocked = true`; the claim predicts `clockLocked = false`
after a module reset. -/
theorem reset_state_counterexample :
    ((WiggleRoom.ClockState.mk (1/4) 1 1 true false true 3 false).resetState).clockLocked
      = true := rfl

/-- C7 (amended): `EuclogicCore::resetState` restores
`clockPeriod = 0.5 s` (120 BPM) and `running = true` (and zeroes the
timers and resync flags), but leaves `clockLocked` unchanged; the clock
unlocks only later, through the 2 s timeout. -/
theorem reset_state_behaviour (s : WiggleRoom.ClockState) :
    s.resetState.clockPeriod = 1/2 ∧
    s.resetState.running = true ∧
    s.resetState.timeSinceClock = 0 ∧
    s.resetState.internalTickPhase = 0 ∧
    s.resetState.hadFirstTick = false ∧
    s.resetState.prevSpeedIdx = 8 ∧
    s.resetState.swingLong = true ∧
    s.resetState.clockLocked = s.clockLocked :=
  ⟨rfl, rfl, rfl, rfl, rfl, rfl, rfl, rfl⟩

/-- Helper: the source's offset search loop computed against the
spec-style first-matching-offset description, for offsets in [1, 11]. -/
theorem quantSearch_spec (mask : Nat) (relNote note octave p : Int)
    (hp : p = octave * 12 + note) (hn0 : 0 ≤ note) (hn1 : note < 12) :
    ∀ offs : List Int, (∀ off ∈ offs, 1 ≤ off ∧ off ≤ 11) →
      WiggleRoom.quantSearch mask relNote note octave p offs =
        (match offs.find? (fun off =>
            mask.testBit (((relNote - off + 12) % 12).toNat) ||
            mask.testBit (((relNote + off) % 12).toNat)) with
        | none => p
        | some off =>
          if mask.testBit (((relNote - off + 12) % 12).toNat) then
            if off ≤ note then p - off else p - off + 12
          else p + off) := by
  intro offs
  induction offs with
  | nil => intro _; rfl
  | cons off rest ih =>
    intro hbound
    obtain ⟨h1, h2⟩ := hbound off (List.mem_cons_self off rest)
    cases hL : mask.testBit (((relNote - off + 12) % 12).toNat) with
    | true =>
      rw [WiggleRoom.quantSearch,
        List.find?_cons_of_pos _ (by simp only [hL, Bool.true_or])]
      have hnn : ¬(note - off + 12 < 0) := by omega
      simp only [hL, eq_self_iff_true, if_true, if_neg hnn]
      split
      · have h12 : (note - off + 12) % 12 = note - off := by omega
        rw [h12, hp]
        ring
      · have h12 : (note - off + 12) % 12 = note - off + 12 := by omega
        rw [h12, hp]
        ring
    | false =>
      cases hU : mask.testBit (((relNote + off) % 12).toNat) with
      | true =>
        rw [WiggleRoom.quantSearch,
          List.find?_cons_of_pos _ (by simp only [hL, hU, Bool.false_or])]
        simp only [hL, hU, Bool.false_eq_true, if_false, eq_self_iff_true,
          if_true]
        split <;> (rw [hp]; ring)
      | false =>
        rw [WiggleRoom.quantSearch,
          List.find?_cons_of_neg _
            (by simp only [hL, hU, Bool.or_self, Bool.false_eq_true,
              not_false_iff])]
        simp only [hL, hU, Bool.false_eq_true, if_false]
        exact ih (fun o ho' => hbound o (List.mem_cons_of_mem off ho'))

/-- C8 counterexample: with the (scale-bus-reachable) scale mask
`1 << 10` and root 0, pitch 13 has pitch 10 as an in-scale semitone 3
below it (pitch 10 passes through unchanged), yet `quantizeToScale`
returns 22 — nine semitones above — because the lower-neighbour branch
adds 12 before its (dead) negative-wrap check.  This falsifies "returns
the nearest in-scale semitone, preferring the lower neighbor". -/
theorem quantize_nearest_counterexample :
    WiggleRoom.quantizeToScale 1024 0 13 = 22 ∧
    WiggleRoom.quantizeToScale 1024 0 10 = 10 ∧
    ((13 : Int) - 10).natAbs < ((22 : Int) - 13).natAbs :=
  ⟨by decide, by decide, by decide⟩

/-- C8 (amended): `quantizeToScale` first clamps the pitch to [0, 36];
it returns the clamped pitch when its note relative to the root is in
the scale; otherwise, at the smallest offset 1..6 with an in-scale
neighbour (lower neighbour preferred at equal offset), it returns
clamped+off for an upper match, clamped−off for a lower match when
off ≤ note, but clamped−off+12 — an octave above the nearest lower
candidate — when the lower neighbour wraps below the octave boundary;
with no in-scale note within 6 semitones it returns the clamped pitch
unchanged. -/
theorem quantize_amended (mask : Nat) (root pitch : Int) :
    WiggleRoom.quantizeToScale mask root pitch =
      WiggleRoom.quantizeSpecAmended mask root pitch := by
  simp only [WiggleRoom.quantizeToScale, WiggleRoom.quantizeSpecAmended]
  by_cases hrel : mask.testBit
      ((((min (max pitch 0) 36) % 12 - root + 12) % 12).toNat)
  · simp only [hrel, if_true]
  · simp only [hrel, if_false]
    apply quantSearch_spec
    · omega
    · omega
    · omega
    · intro off hoff
      fin_cases hoff <;> norm_num
